import Mathlib

/-!
Verification of the xtd `basic_string_view` implementation (string_view
proposal N3609) against its specification.

The C++ class template is embedded shallowly, instantiated with
`std::char_traits`-style semantics: a character is a `Nat` (`char_traits`
orders characters by their unsigned value), a view is a record of whether its
data pointer is null, the list of characters readable in memory starting at
the data pointer, and the stored length `_len`.  `size_t` arithmetic wraps
modulo `2 ^ 64` (LP64 model) where the source performs it on `size_t` values.
Fallible operations return `Except`/`Option`; reads outside readable memory
(undefined behavior) surface as `none` or a dedicated constructor.
-/

/-- Number of values of `size_t` (64-bit, LP64 model). -/
def wordSize : Nat := 2 ^ 64

/-- Shallow embedding of `xtd::basic_string_view`: `null` records whether
`_data` is a null pointer, `mem` is the sequence of characters readable in
memory starting at `_data`, and `len` is the stored `_len`.  The view
exposes the first `len` entries of `mem`; entries beyond `len` are readable
memory that does not belong to the view (for example the rest of a larger
backing string, or a terminating NUL). -/
structure StringView where
  null : Bool
  mem : List Nat
  len : Nat
deriving DecidableEq

/-- Views that can arise at runtime: a null view has no readable memory and
(by constructor normalization) length 0, the exposed length never exceeds
the readable memory, and memory is addressable (fewer than `2 ^ 64`
characters). -/
def Wf (v : StringView) : Prop :=
  (v.null = true → v.mem = [] ∧ v.len = 0) ∧
    v.len ≤ v.mem.length ∧ v.mem.length < wordSize

instance (v : StringView) : Decidable (Wf v) := by
  unfold Wf; infer_instance

/-- The characters the view exposes: `_data[0] .. _data[_len - 1]`. -/
def chars (v : StringView) : List Nat := v.mem.take v.len

/-- Sign of the lexicographic comparison of two character runs, as produced
by `Traits::compare` on two runs of the same length (`memcmp` semantics). -/
def lexSign : List Nat → List Nat → Int
  | [], [] => 0
  | [], _ :: _ => -1
  | _ :: _, [] => 1
  | a :: as, b :: bs => if a < b then -1 else if b < a then 1 else lexSign as bs

/-- `Traits::compare(p, q, n)` compares the first `n` characters at `p` and
`q`.  Reading `n` characters is only defined when both runs have at least
`n` readable characters; otherwise the call reads out of bounds (`none`). -/
def traitsCompare (p q : List Nat) (n : Nat) : Option Int :=
  if n ≤ p.length ∧ n ≤ q.length then some (lexSign (p.take n) (q.take n))
  else none

/-- `basic_string_view::compare`, line for line.  Note that the source
computes `len = min(size(), x.size())` but then passes `_len` (the
receiver's length), not `len`, to `Traits::compare`. -/
def StringView.compare (a x : StringView) : Option Int :=
  let len := min a.len x.len
  if len ≤ 0 then
    some (if a.len = x.len then 0 else if a.len < x.len then -1 else 1)
  else
    match traitsCompare a.mem x.mem a.len with
    | none => none
    | some cmp =>
      some (if cmp ≠ 0 then cmp
            else if a.len = x.len then 0 else if a.len < x.len then -1 else 1)

/-- Message of the `std::out_of_range` thrown by `checkPosition`. -/
def oorMsg : String := "xtd::basic_string_view pos out of range."

/-- Readable memory at the pointer `offset(pos) = _data + (pos >= size() ?
size() : pos)`. -/
def offsetMem (v : StringView) (pos : Nat) : List Nat :=
  v.mem.drop (if v.len ≤ pos then v.len else pos)

/-- `tail(pos, n)`: the length of the substring starting at `pos`.  The
truncation test `*n + pos > size()` is `size_t` arithmetic and therefore
wraps modulo `2 ^ 64`.  (`tail` is only ever invoked with `pos < size()`,
so `size() - pos` itself cannot wrap.) -/
def StringView.tail (v : StringView) (pos : Nat) (n : Option Nat) : Nat :=
  match n with
  | none => v.len - pos
  | some m => if (m + pos) % wordSize > v.len then v.len - pos else m

/-- `substr(pos, n)`: `checkPosition(pos)` throws `std::out_of_range` when
`pos >= size()`; otherwise the result is built by the `(pointer, length)`
constructor, which normalizes the stored length to 0 when the pointer is
null. -/
def StringView.substr (v : StringView) (pos : Nat) (n : Option Nat) :
    Except String StringView :=
  if v.len ≤ pos then Except.error oorMsg
  else Except.ok
    { null := v.null
      mem := offsetMem v pos
      len := if v.null then 0 else v.tail pos n }

/-- `operator==`: `a.size() == b.size() && a.compare(b) == 0` (the compare
call is short-circuited away when the sizes differ). -/
def svEq (a b : StringView) : Bool :=
  a.len == b.len && (a.compare b == some 0)

/-- Does `v.substr(j, s.size())` succeed and compare equal (`operator==`) to
`s`? -/
def substrMatches (v s : StringView) (j : Nat) : Bool :=
  match v.substr j (some s.len) with
  | Except.error _ => false
  | Except.ok w => svEq w s

/-- Does the needle `t` occur in `hay` at offset `i`? -/
def sliceMatch (hay t : List Nat) (i : Nat) : Bool :=
  decide (i + t.length ≤ hay.length) && ((hay.drop i).take t.length == t)

/-- `std::search` scanning forward from offset `i`, with explicit fuel
(`hay.length + 1` steps reach every candidate offset): the first offset at
which the needle occurs, or `hay.length` when there is none. -/
def searchAux (hay t : List Nat) : Nat → Nat → Nat
  | 0, _ => hay.length
  | fuel + 1, i => if sliceMatch hay t i then i else searchAux hay t fuel (i + 1)

/-- `std::find_end` scanning downward from candidate offset `i`: the last
offset at which the needle occurs, or `hay.length` when there is none
(also returned for an empty needle, matching the standard's convention that
`find_end` with an empty pattern yields `last1`). -/
def findEndAux (hay t : List Nat) : Nat → Nat
  | 0 => if sliceMatch hay t 0 then 0 else hay.length
  | i + 1 => if sliceMatch hay t (i + 1) then i + 1 else findEndAux hay t i

/-- `find(basic_string_view)`: `std::search` over `[begin(), end())` plus
`forwardIterOffset`, which maps an iterator equal to `end()` (offset
`_len`) to an empty optional. -/
def StringView.find_sub (v s : StringView) : Option Nat :=
  if searchAux (chars v) (chars s) (v.len + 1) 0 = v.len then none
  else some (searchAux (chars v) (chars s) (v.len + 1) 0)

/-- `rfind(basic_string_view)`: `std::find_end` plus `forwardIterOffset`. -/
def StringView.rfind_sub (v s : StringView) : Option Nat :=
  if findEndAux (chars v) (chars s) v.len = v.len then none
  else some (findEndAux (chars v) (chars s) v.len)

/-- `find(CharT)`: forward `std::find_if` plus `forwardIterOffset` — the
offset of the first character equal to `c`, if any. -/
def StringView.find_ch (v : StringView) (c : Nat) : Option Nat :=
  (chars v).findIdx? (fun x => x == c)

/-- `rfind(CharT)`: reverse `std::find_if` plus `reverseIterOffset` — a hit
at reverse offset `j` denotes forward offset `_len - 1 - j`. -/
def StringView.rfind_ch (v : StringView) (c : Nat) : Option Nat :=
  ((chars v).reverse.findIdx? (fun x => x == c)).map (fun j => v.len - 1 - j)

/-- `find_first_of(CharT)` delegates to `find(CharT)` verbatim. -/
def StringView.find_first_of_ch (v : StringView) (c : Nat) : Option Nat :=
  v.find_ch c

/-- `find_last_of(CharT)` delegates to `rfind(CharT)` verbatim. -/
def StringView.find_last_of_ch (v : StringView) (c : Nat) : Option Nat :=
  v.rfind_ch c

/-- The private `findNotOf` loop
`while(first++ != last) { if(Traits::find(s, |s|, *first) == nullptr) return first; } return last;`
with `i` the offset of `first` before the loop condition runs and explicit
fuel.  The loop compares `first` to `last` before incrementing and then
dereferences the incremented iterator, so offset 0 is never examined; when
the incremented iterator reaches `last`, the loop dereferences one past the
scanned range, but both continuations then return `last`, so that read
cannot change the returned offset and the model returns `scan.length`
directly. -/
def findNotOfAux (scan s : List Nat) : Nat → Nat → Nat
  | 0, _ => scan.length
  | fuel + 1, i =>
    if i = scan.length then scan.length
    else if i + 1 < scan.length then
      if s.contains (scan.getD (i + 1) 0) then findNotOfAux scan s fuel (i + 1)
      else i + 1
    else scan.length

/-- `find_first_not_of(basic_string_view)`: `findNotOf` over the forward
range plus `forwardIterOffset`. -/
def StringView.find_first_not_of (v s : StringView) : Option Nat :=
  if findNotOfAux (chars v) (chars s) (v.len + 1) 0 = v.len then none
  else some (findNotOfAux (chars v) (chars s) (v.len + 1) 0)

/-- `find_last_not_of(basic_string_view)`: `findNotOf` over the reverse
range plus `reverseIterOffset` (a reverse offset `j` denotes forward offset
`_len - 1 - j`). -/
def StringView.find_last_not_of (v s : StringView) : Option Nat :=
  if findNotOfAux (chars v).reverse (chars s) (v.len + 1) 0 = v.len then none
  else some (v.len - 1 - findNotOfAux (chars v).reverse (chars s) (v.len + 1) 0)

/-- Result of one debug-build element access: a failed assertion, a read
outside readable memory (undefined behavior), or the character read. -/
inductive DebugAccess where
  | assertfail : String → DebugAccess
  | undef : DebugAccess
  | value : Nat → DebugAccess
deriving DecidableEq

/-- Message of `assertNonNull`. -/
def nullAssertMsg : String := "xtd::basic_string_view points to NULL."

/-- Message of `assertNonEmpty`. -/
def emptyAssertMsg : String := "xtd::basic_string_view has length zero."

/-- Debug-build `operator[]`: `assertNonNull(), assertNonEmpty(),
_data[pos]`.  `assertNonNull` asserts that `_data` is non-null and
`assertNonEmpty` asserts `_len > 0`; no assertion mentions `pos`.  The read
`_data[pos]` then yields whatever sits in readable memory at offset `pos`,
or undefined behavior beyond it. -/
def opIndexDebug (v : StringView) (pos : Nat) : DebugAccess :=
  if v.null = true then DebugAccess.assertfail nullAssertMsg
  else if v.len = 0 then DebugAccess.assertfail emptyAssertMsg
  else if pos < v.mem.length then DebugAccess.value (v.mem.getD pos 0)
  else DebugAccess.undef

/-- The formatted-output state `operator<<` interacts with: the field width
(`std::streamsize`, a signed 64-bit integer), the fill character, whether
`(flags() & adjustfield) == left`, whether the sentry succeeds (stream
good), and the characters written so far. -/
structure OStream where
  width : Int
  fill : Nat
  adjustLeft : Bool
  good : Bool
  out : List Nat
deriving DecidableEq

/-- The conversion applied to the signed `streamsize` by the comparison
`width > s.size()` (usual arithmetic conversions: the signed 64-bit value is
converted to `size_t`, i.e. reduced modulo `2 ^ 64`). -/
def uSize (w : Int) : Nat := (w % (wordSize : Int)).toNat

/-- `operator<<(basic_ostream&, basic_string_view)`: when the sentry
succeeds, writes the view's characters, padded with the fill character up to
the field width (`width - size()` fill characters, after the content when
`adjustfield == left`, before it otherwise), then resets the width to 0;
when the sentry fails, sets `failbit` and writes nothing. -/
def OStream.insert (os : OStream) (v : StringView) : OStream :=
  if os.good then
    if uSize os.width > v.len then
      if os.adjustLeft then
        { os with
          out := os.out ++ chars v ++
            List.replicate (uSize os.width - v.len) os.fill
          width := 0 }
      else
        { os with
          out := os.out ++
            List.replicate (uSize os.width - v.len) os.fill ++ chars v
          width := 0 }
    else { os with out := os.out ++ chars v, width := 0 }
  else { os with good := false }

/-- The characters a wellformed view exposes number exactly `_len`. -/
theorem chars_length {v : StringView} (h : v.len ≤ v.mem.length) :
    (chars v).length = v.len := by
  simp [chars]; omega

/-- `lexSign` is zero exactly on equal runs of equal length. -/
theorem lexSign_eq_zero {a : List Nat} : ∀ {b : List Nat}, a.length = b.length →
    (lexSign a b = 0 ↔ a = b) := by
  induction a with
  | nil =>
    intro b h
    cases b with
    | nil => simp [lexSign]
    | cons y ys => simp at h
  | cons x xs ih =>
    intro b h
    cases b with
    | nil => simp at h
    | cons y ys =>
      rcases Nat.lt_trichotomy x y with h1 | h1 | h1
      · rw [lexSign, if_pos h1]
        constructor
        · intro h0; exact absurd h0 (by decide)
        · intro h0; injection h0 with hx _; omega
      · subst h1
        rw [lexSign, if_neg (Nat.lt_irrefl x), if_neg (Nat.lt_irrefl x)]
        rw [ih (by simpa using h)]
        constructor
        · intro h0; rw [h0]
        · intro h0; injection h0
      · rw [lexSign, if_neg (by omega), if_pos h1]
        constructor
        · intro h0; exact absurd h0 (by decide)
        · intro h0; injection h0 with hx _; omega

/-- For two views of equal length backed by enough readable memory,
`compare` returns 0 exactly when the exposed characters coincide. -/
theorem compare_eq_zero_iff {a b : StringView} (hlen : a.len = b.len)
    (ha : a.len ≤ a.mem.length) (hb : b.len ≤ b.mem.length) :
    a.compare b = some 0 ↔ chars a = chars b := by
  unfold StringView.compare
  rcases Nat.eq_zero_or_pos a.len with h0 | h0
  · rw [if_pos (by omega)]
    simp [chars, h0, ← hlen]
  · rw [if_neg (by omega)]
    unfold traitsCompare
    rw [if_pos ⟨ha, by omega⟩]
    have hlA : (a.mem.take a.len).length = a.len := by simp; omega
    have hlB : (b.mem.take a.len).length = a.len := by simp; omega
    have hz := lexSign_eq_zero (a := a.mem.take a.len) (b := b.mem.take a.len)
      (by rw [hlA, hlB])
    by_cases hc : lexSign (a.mem.take a.len) (b.mem.take a.len) = 0
    · rw [hc]
      show some (if (0 : Int) ≠ 0 then (0 : Int)
          else if a.len = b.len then 0 else if a.len < b.len then -1 else 1) =
          some 0 ↔ chars a = chars b
      rw [if_neg (by simp), if_pos hlen]
      constructor
      · intro _; simpa [chars, ← hlen] using hz.mp hc
      · intro _; rfl
    · show some (if lexSign (a.mem.take a.len) (b.mem.take a.len) ≠ 0 then
            lexSign (a.mem.take a.len) (b.mem.take a.len)
          else if a.len = b.len then 0 else if a.len < b.len then -1 else 1) =
          some 0 ↔ chars a = chars b
      rw [if_pos hc]
      constructor
      · intro hsome; injection hsome with h'; exact absurd h' hc
      · intro hch
        exact absurd (hz.mpr (by simpa [chars, ← hlen] using hch)) hc

/-- `searchAux` returns `hay.length` or an offset where the needle occurs. -/
theorem searchAux_matches (hay t : List Nat) : ∀ fuel i,
    searchAux hay t fuel i = hay.length ∨
      sliceMatch hay t (searchAux hay t fuel i) = true := by
  intro fuel
  induction fuel with
  | zero => intro i; left; rfl
  | succ n ih =>
    intro i
    by_cases h : sliceMatch hay t i
    · right; rw [searchAux, if_pos h]; exact h
    · rw [searchAux, if_neg h]; exact ih (i + 1)

/-- When `searchAux` reports a proper offset, no offset between the start of
the scan and it carries an occurrence: the forward search is minimal. -/
theorem searchAux_min (hay t : List Nat) : ∀ fuel i j, i ≤ j →
    j < searchAux hay t fuel i → searchAux hay t fuel i ≠ hay.length →
    sliceMatch hay t j = false := by
  intro fuel
  induction fuel with
  | zero => intro i j _ _ hne; exact absurd rfl hne
  | succ n ih =>
    intro i j hij hlt hne
    by_cases h : sliceMatch hay t i
    · rw [searchAux, if_pos h] at hlt; omega
    · rw [searchAux, if_neg h] at hlt hne
      by_cases hji : j = i
      · subst hji; exact Bool.not_eq_true _ ▸ eq_false_of_ne_true h
      · exact ih (i + 1) j (by omega) hlt hne

/-- `findEndAux` returns `hay.length` or an offset where the needle occurs. -/
theorem findEndAux_matches (hay t : List Nat) : ∀ i,
    findEndAux hay t i = hay.length ∨
      sliceMatch hay t (findEndAux hay t i) = true := by
  intro i
  induction i with
  | zero =>
    by_cases h : sliceMatch hay t 0
    · right; rw [findEndAux, if_pos h]; exact h
    · left; rw [findEndAux, if_neg h]
  | succ k ih =>
    by_cases h : sliceMatch hay t (k + 1)
    · right; rw [findEndAux, if_pos h]; exact h
    · rw [findEndAux, if_neg h]; exact ih

/-- No offset above the result of `findEndAux` and within the scanned range
carries an occurrence: the downward search is maximal. -/
theorem findEndAux_max (hay t : List Nat) : ∀ i j, j ≤ i →
    findEndAux hay t i < j → sliceMatch hay t j = false := by
  intro i
  induction i with
  | zero =>
    intro j hj hlt
    interval_cases j
    by_cases h : sliceMatch hay t 0
    · rw [findEndAux, if_pos h] at hlt; omega
    · exact eq_false_of_ne_true h
  | succ k ih =>
    intro j hj hlt
    by_cases h : sliceMatch hay t (k + 1)
    · rw [findEndAux, if_pos h] at hlt; omega
    · rw [findEndAux, if_neg h] at hlt
      by_cases hjk : j = k + 1
      · subst hjk; exact eq_false_of_ne_true h
      · exact ih j (by omega) hlt

/-- Two booleans agreeing as propositions are equal. -/
theorem bool_eq_of_iff {a b : Bool} (h : a = true ↔ b = true) : a = b := by
  cases a <;> cases b <;> simp_all

/-- Bridge between the two readings of a match at offset `j`: for wellformed
views and a nonempty needle, `substr(j, |s|)` succeeds and compares equal to
`s` (`operator==`) exactly when the needle occurs at offset `j` of the
exposed characters.  The size_t wrap in `tail` and the out-of-bounds read in
`compare` are shown not to produce spurious matches for addressable
(fewer than 2^64 characters) memory. -/
theorem substrMatches_eq_sliceMatch {v s : StringView} (hv : Wf v) (hs : Wf s)
    (hpos : 0 < s.len) (j : Nat) :
    substrMatches v s j = sliceMatch (chars v) (chars s) j := by
  obtain ⟨hvn, hvl, hvw⟩ := hv
  obtain ⟨hsn, hsl, hsw⟩ := hs
  have hcv : (chars v).length = v.len := chars_length hvl
  have hcs : (chars s).length = s.len := chars_length hsl
  by_cases hj : v.len ≤ j
  · have h1 : substrMatches v s j = false := by
      unfold substrMatches StringView.substr
      rw [if_pos hj]
    have h2 : sliceMatch (chars v) (chars s) j = false := by
      unfold sliceMatch
      rw [decide_eq_false (by rw [hcv, hcs]; omega), Bool.false_and]
    rw [h1, h2]
  · push_neg at hj
    have hnn : v.null = false := by
      cases hn : v.null
      · rfl
      · obtain ⟨-, h0⟩ := hvn hn; omega
    have hsub : v.substr j (some s.len) =
        Except.ok ⟨false, v.mem.drop j, v.tail j (some s.len)⟩ := by
      simp [StringView.substr, offsetMem, hnn, show ¬ v.len ≤ j from by omega]
    have hsm : substrMatches v s j =
        svEq ⟨false, v.mem.drop j, v.tail j (some s.len)⟩ s := by
      unfold substrMatches
      rw [hsub]
    by_cases hle : j + s.len ≤ v.len
    · -- the needle fits: both sides test equality with the slice
      have hw : (s.len + j) % wordSize = s.len + j :=
        Nat.mod_eq_of_lt (by omega)
      have htail : v.tail j (some s.len) = s.len := by
        simp only [StringView.tail]
        rw [hw, if_neg (by omega)]
      rw [htail] at hsm
      have hslice : ((chars v).drop j).take (chars s).length =
          (v.mem.drop j).take s.len := by
        rw [hcs]
        unfold chars
        rw [List.drop_take, List.take_take]
        congr 1
        omega
      have hcomp := compare_eq_zero_iff (a := ⟨false, v.mem.drop j, s.len⟩)
        (b := s) rfl (by simp; omega) hsl
      have lhsEq : substrMatches v s j = ((v.mem.drop j).take s.len == chars s) := by
        rw [hsm]
        apply bool_eq_of_iff
        simp only [svEq, Bool.and_eq_true, beq_iff_eq, beq_self_eq_true, true_and]
        rw [hcomp]
        exact Iff.rfl
      have rhsEq : sliceMatch (chars v) (chars s) j =
          ((v.mem.drop j).take s.len == chars s) := by
        unfold sliceMatch
        rw [decide_eq_true (by rw [hcv, hcs]; omega), hslice, Bool.true_and]
      rw [lhsEq, rhsEq]
    · -- the needle does not fit inside the view
      have h2 : sliceMatch (chars v) (chars s) j = false := by
        unfold sliceMatch
        rw [decide_eq_false (by rw [hcv, hcs]; omega), Bool.false_and]
      rw [h2]
      by_cases hwB : s.len + j < wordSize
      · -- no size_t wrap: tail truncates, sizes differ
        have htail : v.tail j (some s.len) = v.len - j := by
          simp only [StringView.tail]
          rw [Nat.mod_eq_of_lt hwB, if_pos (by omega)]
        rw [htail] at hsm
        rw [hsm]
        simp [svEq, show v.len - j ≠ s.len from by omega]
      · -- size_t wrap: either sizes differ or the compare reads out of bounds
        push_neg at hwB
        by_cases hcond : (s.len + j) % wordSize > v.len
        · have htail : v.tail j (some s.len) = v.len - j := by
            simp only [StringView.tail]
            rw [if_pos hcond]
          rw [htail] at hsm
          rw [hsm]
          simp [svEq, show v.len - j ≠ s.len from by omega]
        · have htail : v.tail j (some s.len) = s.len := by
            simp only [StringView.tail]
            rw [if_neg hcond]
          rw [htail] at hsm
          rw [hsm]
          have hcmp : (⟨false, v.mem.drop j, s.len⟩ : StringView).compare s = none := by
            unfold StringView.compare
            rw [if_neg (by simp; omega)]
            unfold traitsCompare
            rw [if_neg (by simp; omega)]
          simp [svEq, hcmp]

/-- C8: for every wellformed non-null view and nonempty needle: if
`find(needle)` returns `some i`, then `substr(i, needle.size())` compares
equal to the needle and no `j < i` satisfies that equality (forward match is
minimal); if `rfind(needle)` returns `some i`, the same equality holds at
`i` and no `j > i` satisfies it (reverse match is maximal). -/
theorem find_rfind_roundtrip (v s : StringView) (hv : Wf v) (hs : Wf s)
    (hnn : v.null = false) (hpos : 0 < s.len) :
    (∀ i, v.find_sub s = some i →
      substrMatches v s i = true ∧ ∀ j, j < i → substrMatches v s j = false) ∧
    (∀ i, v.rfind_sub s = some i →
      substrMatches v s i = true ∧ ∀ j, i < j → substrMatches v s j = false) := by
  have hL : ∀ j, substrMatches v s j = sliceMatch (chars v) (chars s) j :=
    fun j => substrMatches_eq_sliceMatch hv hs hpos j
  have hcv : (chars v).length = v.len := chars_length hv.2.1
  have hcs : (chars s).length = s.len := chars_length hs.2.1
  constructor
  · intro i hi
    unfold StringView.find_sub at hi
    by_cases hr : searchAux (chars v) (chars s) (v.len + 1) 0 = v.len
    · rw [if_pos hr] at hi; exact absurd hi (by simp)
    · rw [if_neg hr] at hi
      injection hi with hi'
      subst hi'
      have hne : searchAux (chars v) (chars s) (v.len + 1) 0 ≠ (chars v).length := by
        rw [hcv]; exact hr
      constructor
      · rcases searchAux_matches (chars v) (chars s) (v.len + 1) 0 with h | h
        · exact absurd h hne
        · rw [hL]; exact h
      · intro j hj
        rw [hL]
        exact searchAux_min (chars v) (chars s) (v.len + 1) 0 j (Nat.zero_le j) hj hne
  · intro i hi
    unfold StringView.rfind_sub at hi
    by_cases hr : findEndAux (chars v) (chars s) v.len = v.len
    · rw [if_pos hr] at hi; exact absurd hi (by simp)
    · rw [if_neg hr] at hi
      injection hi with hi'
      subst hi'
      have hne : findEndAux (chars v) (chars s) v.len ≠ (chars v).length := by
        rw [hcv]; exact hr
      constructor
      · rcases findEndAux_matches (chars v) (chars s) v.len with h | h
        · exact absurd h hne
        · rw [hL]; exact h
      · intro j hj
        rw [hL]
        by_cases hjlen : j ≤ v.len
        · exact findEndAux_max (chars v) (chars s) v.len j hjlen hj
        · unfold sliceMatch
          rw [decide_eq_false (by rw [hcv, hcs]; omega), Bool.false_and]

/-- C3 (amended): searching for an empty sub-view succeeds at offset 0 for
every non-null receiver of positive length; a receiver of length 0 instead
returns not-found, because `std::search` returns `begin() = end()` and
`forwardIterOffset` maps `end()` to an empty optional. -/
theorem find_empty_needle (v s : StringView) (hv : Wf v) (hnn : v.null = false)
    (hlen : 0 < v.len) (hs : s.len = 0) : v.find_sub s = some 0 := by
  have hcs : chars s = [] := by simp [chars, hs]
  have h1 : sliceMatch (chars v) (chars s) 0 = true := by
    simp [sliceMatch, hcs]
  have h0 : searchAux (chars v) (chars s) (v.len + 1) 0 = 0 := by
    rw [searchAux, if_pos h1]
  unfold StringView.find_sub
  rw [h0, if_neg (by omega)]

/-- C4 (amended): for every non-null view of positive length, `substr(0)`
succeeds, yields the view itself, and the result compares equal to the
original; a non-null view of length 0 instead throws out_of_range (see the
counterexample). -/
theorem substr_zero_compare (v : StringView) (hv : Wf v) (hnn : v.null = false)
    (hlen : 0 < v.len) :
    v.substr 0 none = Except.ok v ∧ v.compare v = some 0 := by
  constructor
  · unfold StringView.substr
    rw [if_neg (by omega)]
    have : offsetMem v 0 = v.mem := by
      unfold offsetMem
      rw [if_neg (by omega)]
      exact List.drop_zero v.mem
    rw [this, hnn]
    simp only [StringView.tail, Bool.false_eq_true, if_false, Nat.sub_zero]
    rw [← hnn]
  · exact (compare_eq_zero_iff rfl hv.2.1 hv.2.1).mpr rfl

/-- C5 (amended): for `pos < length` and a requested length that does not
wrap `size_t` (`pos + n < 2^64` whenever `n` is present),
`substr(pos, n).size() = min(n.orElse(length - pos), length - pos)`: absent
or oversized requests are truncated to the remaining tail, other requests
are honored exactly. -/
theorem substr_size_min (v : StringView) (pos : Nat) (n : Option Nat) (hv : Wf v)
    (hpos : pos < v.len) (hn : ∀ m, n = some m → pos + m < wordSize) :
    Except.map (fun w => w.len) (v.substr pos n) =
      Except.ok (min (n.getD (v.len - pos)) (v.len - pos)) := by
  have hnn : v.null = false := by
    cases hnull : v.null
    · rfl
    · obtain ⟨-, h0⟩ := hv.1 hnull; omega
  unfold StringView.substr
  rw [if_neg (by omega), hnn]
  simp only [Bool.false_eq_true, if_false, Except.map, Option.getD]
  cases n with
  | none =>
    simp [StringView.tail]
  | some m =>
    have hm : pos + m < wordSize := hn m rfl
    simp only [StringView.tail]
    by_cases hc : m + pos > v.len
    · rw [if_pos (by rw [Nat.mod_eq_of_lt (by omega)]; omega)]
      congr 1
      omega
    · rw [if_neg (by rw [Nat.mod_eq_of_lt (by omega)]; omega)]
      congr 1
      omega

/-- C6: `substr(pos, n)` throws the catchable out-of-range error exactly
when `pos >= length`; in particular `pos = length` always fails, even for an
empty view where `pos = length = 0`, and `pos < length` never fails. -/
theorem substr_oor_iff (v : StringView) (pos : Nat) (n : Option Nat) :
    v.substr pos n = Except.error oorMsg ↔ v.len ≤ pos := by
  unfold StringView.substr
  by_cases h : v.len ≤ pos
  · simp [h]
  · simp [h]

/-- C7 (amended): in debug builds `operator[](pos)` asserts that the view is
not null-backed and that it is non-empty (`_len > 0`); the assertion fires
exactly in those two cases, independently of `pos`, so an access with
`pos >= length` on a non-null non-empty view passes both assertions and
proceeds. -/
theorem opIndex_assert_iff (v : StringView) (pos : Nat) :
    (∃ m, opIndexDebug v pos = DebugAccess.assertfail m) ↔
      (v.null = true ∨ v.len = 0) := by
  unfold opIndexDebug
  by_cases h1 : v.null = true
  · simp [h1]
  · by_cases h2 : v.len = 0
    · simp [h1, h2]
    · by_cases h3 : pos < v.mem.length <;> simp [h1, h2, h3]

/-- C9 (amended): writing a view to a good formatted-output sink whose field
width is non-negative (and representable in 64 bits) pads on the deficit
side with the fill character when the content is shorter than the width
(content then fill when left-justified, fill then content otherwise), emits
no padding when the content length meets or exceeds the width, and resets
the width to 0. -/
theorem insert_formats (os : OStream) (v : StringView) (hg : os.good = true)
    (h0 : 0 ≤ os.width) (hW : os.width < (wordSize : Int)) :
    (os.insert v).width = 0 ∧
    (os.insert v).out = os.out ++
      (if v.len < os.width.toNat then
        (if os.adjustLeft then
          chars v ++ List.replicate (os.width.toNat - v.len) os.fill
         else List.replicate (os.width.toNat - v.len) os.fill ++ chars v)
       else chars v) := by
  have hu : uSize os.width = os.width.toNat := by
    unfold uSize
    rw [Int.emod_eq_of_lt h0 hW]
  unfold OStream.insert
  rw [hg, hu]
  by_cases hpad : os.width.toNat > v.len
  · rw [if_pos hpad, if_pos (by omega : v.len < os.width.toNat)]
    by_cases hadj : os.adjustLeft
    · rw [if_pos hadj, if_pos hadj]
      exact ⟨rfl, by simp [List.append_assoc]⟩
    · rw [if_neg hadj, if_neg hadj]
      exact ⟨rfl, by simp [List.append_assoc]⟩
  · rw [if_neg hpad, if_neg (by omega : ¬ v.len < os.width.toNat)]
    exact ⟨rfl, rfl⟩

/-- C1: evaluation at the failing input.  With `a` the view over "ab" and
`b` a length-1 view whose readable memory is "ax", `compare` passes
`_len = 2` instead of the common length 1 to `Traits::compare`, reading past
`b`'s exposed window: both `a.compare(b)` and `b.compare(a)` return -1,
while the min-common-prefix rule demands `a.compare(b) > 0` (equal common
prefix, `a` longer) and opposite signs for the two calls. -/
theorem compare_passes_receiver_length :
    StringView.compare ⟨false, [97, 98], 2⟩ ⟨false, [97, 120], 1⟩ = some (-1) ∧
      StringView.compare ⟨false, [97, 120], 1⟩ ⟨false, [97, 98], 2⟩ = some (-1) :=
  ⟨rfl, rfl⟩

/-- C2: evaluation at the failing input.  `v` views the single character 'b'
(readable memory "b" plus its terminating NUL), the set views "a";
because `findNotOf` increments the iterator before dereferencing, position 0
is never examined and both searches report not-found, while the claim
requires `some 0` (character 'b' is not in the set). -/
theorem findNotOf_skips_first_position :
    StringView.find_first_not_of ⟨false, [98, 0], 1⟩ ⟨false, [97, 0], 1⟩ = none ∧
      StringView.find_last_not_of ⟨false, [98, 0], 1⟩ ⟨false, [97, 0], 1⟩ = none :=
  ⟨rfl, rfl⟩

/-- C3: counterexample.  The receiver is the non-null view of length 0 over
"" and the needle is the empty view; `find` returns `none`, not `some 0`:
the claim fails for length-0 receivers. -/
theorem find_empty_needle_empty_receiver :
    StringView.find_sub ⟨false, [0], 0⟩ ⟨false, [0], 0⟩ = none := rfl

/-- C3: witness for `find_empty_needle` at the one-character view "x" and
an empty needle. -/
theorem find_empty_needle_witness :
    Wf ⟨false, [120], 1⟩ ∧ (⟨false, [120], 1⟩ : StringView).null = false ∧
      0 < (⟨false, [120], 1⟩ : StringView).len ∧
      (⟨false, [0], 0⟩ : StringView).len = 0 ∧
      StringView.find_sub ⟨false, [120], 1⟩ ⟨false, [0], 0⟩ = some 0 :=
  ⟨by decide, rfl, by decide, rfl,
    find_empty_needle ⟨false, [120], 1⟩ ⟨false, [0], 0⟩ (by decide) rfl (by decide) rfl⟩

/-- C4: counterexample.  A non-null view of length 0 (data pointing at ""):
`substr(0)` throws out_of_range because `checkPosition` rejects
`pos >= size()` and here `0 >= 0`, so the claim fails for non-null views of
length 0. -/
theorem substr_zero_empty_view_throws :
    StringView.substr ⟨false, [0], 0⟩ 0 none = Except.error oorMsg := rfl

/-- C4: witness for `substr_zero_compare` at the view over "ab". -/
theorem substr_zero_compare_witness :
    Wf ⟨false, [97, 98], 2⟩ ∧ (⟨false, [97, 98], 2⟩ : StringView).null = false ∧
      0 < (⟨false, [97, 98], 2⟩ : StringView).len ∧
      ((⟨false, [97, 98], 2⟩ : StringView).substr 0 none =
          Except.ok ⟨false, [97, 98], 2⟩ ∧
        (⟨false, [97, 98], 2⟩ : StringView).compare ⟨false, [97, 98], 2⟩ = some 0) :=
  ⟨by decide, rfl, by decide,
    substr_zero_compare ⟨false, [97, 98], 2⟩ (by decide) rfl (by decide)⟩

/-- C5: counterexample.  View of length 2, `pos = 1`, requested length
`2^64 - 1`: the truncation test `*n + pos > size()` wraps to 0 in `size_t`,
so no truncation happens and the result has length `2^64 - 1` instead of
`min(2^64 - 1, length - pos) = 1`. -/
theorem substr_requested_length_wraps :
    StringView.substr ⟨false, [7, 8], 2⟩ 1 (some (wordSize - 1)) =
        Except.ok ⟨false, [8], wordSize - 1⟩ ∧
      wordSize - 1 ≠ min (wordSize - 1) (2 - 1) :=
  ⟨rfl, by decide⟩

/-- C5: witness for `substr_size_min` at the view over two characters,
`pos = 1`, absent requested length. -/
theorem substr_size_min_witness :
    Wf ⟨false, [7, 8], 2⟩ ∧ (1 : Nat) < (⟨false, [7, 8], 2⟩ : StringView).len ∧
      Except.map (fun w => w.len) ((⟨false, [7, 8], 2⟩ : StringView).substr 1 none) =
        Except.ok 1 :=
  ⟨by decide, by decide,
    (substr_size_min ⟨false, [7, 8], 2⟩ 1 none (by decide) (by decide)
        (fun m hm => nomatch hm)).trans rfl⟩

/-- C7: counterexample.  A non-null view of length 2 whose readable memory
is `[7, 8, 9]`, indexed at `pos = 2 >= length`: both debug assertions
(non-null and non-empty) pass and the access proceeds, returning the
out-of-window byte 9 -- no assertion checks `pos < length`, refuting the
claim that the debug build stops such accesses. -/
theorem opIndex_out_of_range_not_asserted :
    opIndexDebug ⟨false, [7, 8, 9], 2⟩ 2 = DebugAccess.value 9 := rfl

/-- C8: witness for `find_rfind_roundtrip` on the view `[1, 2, 1, 2]` and
the needle `[1, 2]` (`rfind` reports offset 2 and the needle indeed matches
there). -/
theorem find_rfind_roundtrip_witness :
    Wf ⟨false, [1, 2, 1, 2], 4⟩ ∧ Wf ⟨false, [1, 2], 2⟩ ∧
      (⟨false, [1, 2, 1, 2], 4⟩ : StringView).null = false ∧
      0 < (⟨false, [1, 2], 2⟩ : StringView).len ∧
      substrMatches ⟨false, [1, 2, 1, 2], 4⟩ ⟨false, [1, 2], 2⟩ 2 = true :=
  ⟨by decide, by decide, rfl, by decide,
    ((find_rfind_roundtrip ⟨false, [1, 2, 1, 2], 4⟩ ⟨false, [1, 2], 2⟩ (by decide)
        (by decide) rfl (by decide)).2 2 (by decide)).1⟩

/-- C9: counterexample.  A good stream with field width -1 and fill 42
receiving the view "ab": the content length 2 meets or exceeds the width
-1, so the claim requires the bare content "ab", but the signed width is
converted to `size_t` (2^64 - 1) by the comparison `width > s.size()` and
the stream emits 2^64 - 3 fill characters before the content. -/
theorem insert_negative_width_pads :
    (OStream.insert ⟨-1, 42, false, true, []⟩ ⟨false, [97, 98], 2⟩).out ≠ [97, 98] := by
  intro heq
  have hout : (OStream.insert ⟨-1, 42, false, true, []⟩ ⟨false, [97, 98], 2⟩).out =
      [] ++ List.replicate (uSize (-1) - 2) 42 ++ [97, 98] := rfl
  have hu : uSize (-1) - 2 = 18446744073709551613 := by decide
  rw [hout, hu] at heq
  have hlen := congrArg List.length heq
  rw [List.nil_append, List.length_append, List.length_replicate] at hlen
  exact absurd hlen (by decide)

/-- C9: witness for `insert_formats`: width 5, fill 42, right-justified, on
the view "ab" produces three fills then the content. -/
theorem insert_formats_witness :
    (⟨5, 42, false, true, []⟩ : OStream).good = true ∧
      (0 : Int) ≤ (⟨5, 42, false, true, []⟩ : OStream).width ∧
      (⟨5, 42, false, true, []⟩ : OStream).width < (wordSize : Int) ∧
      (OStream.insert ⟨5, 42, false, true, []⟩ ⟨false, [97, 98], 2⟩).out =
        [42, 42, 42, 97, 98] :=
  ⟨rfl, by decide, by decide,
    ((insert_formats ⟨5, 42, false, true, []⟩ ⟨false, [97, 98], 2⟩ rfl (by decide)
        (by decide)).2).trans (by decide)⟩

/-- C10: the single-character of-variants coincide exactly with the plain
searches: `find_first_of(ch)` returns the same optional result as
`find(ch)` and `find_last_of(ch)` the same as `rfind(ch)` (both are
verbatim delegations in the source). -/
theorem of_char_variants_delegate (v : StringView) (c : Nat) :
    v.find_first_of_ch c = v.find_ch c ∧ v.find_last_of_ch c = v.rfind_ch c :=
  ⟨rfl, rfl⟩
